import Mathlib

/-!
Verification of the HTTP/1.1 codec in mbrubeck/async-h1 (src/client.rs and
src/server.rs), as a shallow embedding.  Bytes are modelled as `List Nat`,
byte sources as in-memory byte lists (a source yields as many bytes as fit
into the space it is offered), and fallible or panicking code paths as
explicit result constructors.
-/

abbrev Bytes := List Nat

/-! ## The streaming encoder

`Encoder` mirrors the struct in src/client.rs lines 20-35 and src/server.rs
lines 17-31 (the two are field-for-field identical); `Encoder.poll_read`
mirrors the `poll_read` implementations in src/client.rs lines 247-278 and
src/server.rs lines 47-78 (identical logic).  The body's byte producer is
modelled as an in-memory byte list: a poll of the body with `k` bytes of
buffer space yields `min k remaining` bytes, and the returned `Bytes` value
is exactly the bytes written into the caller's buffer, header bytes first.
-/

structure Encoder where
  cursor : Nat
  headers : Bytes
  headers_done : Bool
  body : Bytes
  body_done : Bool
  body_bytes_read : Nat
  deriving DecidableEq

def Encoder.new (headers body : Bytes) : Encoder :=
  { cursor := 0, headers := headers, headers_done := false,
    body := body, body_done := false, body_bytes_read := 0 }

/-- The header-copy phase of `poll_read` (the first `if` block): copy
`min (headers.len - cursor) buf.len` bytes from the headers, advance the
cursor, and set `headers_done` when the cursor reaches the end. -/
def Encoder.headerStep (e : Encoder) (buflen : Nat) : Bytes × Encoder :=
  if e.headers_done then ([], e)
  else
    ((e.headers.drop e.cursor).take (min (e.headers.length - e.cursor) buflen),
     { e with
        cursor := e.cursor + min (e.headers.length - e.cursor) buflen,
        headers_done :=
          decide (e.cursor + min (e.headers.length - e.cursor) buflen
                    = e.headers.length) })

/-- The body phase of `poll_read` (the second `if` block): poll the body
into the rest of the buffer, and mark `body_done` when the total number of
bytes produced by this call is zero. -/
def Encoder.bodyStep (e : Encoder) (buflen : Nat) (hout : Bytes) : Bytes × Encoder :=
  if e.body_done then (hout, e)
  else
    (hout ++ e.body.take (min (buflen - hout.length) e.body.length),
     { e with
        body := e.body.drop (min (buflen - hout.length) e.body.length),
        body_done :=
          decide (hout.length + min (buflen - hout.length) e.body.length = 0),
        body_bytes_read :=
          e.body_bytes_read + min (buflen - hout.length) e.body.length })

/-- One `poll_read` call with a caller buffer of `buflen` bytes: the header
phase followed by the body phase.  Returns the bytes written and the new
encoder state. -/
def Encoder.poll_read (e : Encoder) (buflen : Nat) : Bytes × Encoder :=
  Encoder.bodyStep (Encoder.headerStep e buflen).2 buflen (Encoder.headerStep e buflen).1

/-- The bytes the encoder has not yet produced: the unsent header remainder
followed by the unsent body bytes. -/
def Encoder.remaining (e : Encoder) : Bytes :=
  e.headers.drop e.cursor ++ e.body

/-- Reachability invariant of encoder states (holds for `Encoder.new` and is
preserved by `poll_read` with a nonempty buffer). -/
def Encoder.Inv (e : Encoder) : Prop :=
  e.cursor ≤ e.headers.length ∧
  (e.headers_done = true → e.cursor = e.headers.length) ∧
  (e.body_done = true → e.headers_done = true ∧ e.body = [])

instance (e : Encoder) : Decidable e.Inv := by
  unfold Encoder.Inv; infer_instance

/-- Run a sequence of `poll_read` calls with the given buffer sizes,
collecting the bytes produced by each call. -/
def Encoder.runTrace : Encoder → List Nat → List Bytes × Encoder
  | e, [] => ([], e)
  | e, s :: ss =>
    ((Encoder.poll_read e s).1 :: (Encoder.runTrace (Encoder.poll_read e s).2 ss).1,
     (Encoder.runTrace (Encoder.poll_read e s).2 ss).2)

/-- Drive the encoder to exhaustion with a fixed buffer size: keep calling
`poll_read` until a call returns no bytes, concatenating all bytes produced.
`fuel` bounds the number of calls (any fuel larger than the total number of
bytes suffices). -/
def Encoder.drainOut : Encoder → Nat → Nat → Bytes
  | _, _, 0 => []
  | e, s, fuel + 1 =>
    if (Encoder.poll_read e s).1 = [] then []
    else (Encoder.poll_read e s).1 ++ Encoder.drainOut (Encoder.poll_read e s).2 s fuel

/-! ## Client request encoding (src/client.rs lines 68-132)

`client_encode` mirrors `encode`.  The date formatter is an external
collaborator, so the formatted current date is passed in as the `now`
argument.  Multi-valued headers are a name paired with its value list, and
`req.iter()` is modelled as iteration in stored order.  The `panic!` on an
unknown body length (line 111) is modelled by the `panicked` constructor.
-/

structure Url where
  path : String
  query : Option String
  fragment : Option String
  host : Option String
  port : Option Nat

structure Request where
  method : String
  url : Url
  headers : List (String × List String)
  body_len : Option Nat

inductive EncErr where
  | invalidInput
  deriving DecidableEq

inductive EncodeResult where
  | ok (buf : String)
  | err (e : EncErr)
  | panicked (msg : String)
  deriving DecidableEq

/-- True exactly when the result is an ordinary typed error value (not a
success and not a process abort). -/
def EncodeResult.isTypedError : EncodeResult → Bool
  | .err _ => true
  | _ => false

/-- The request target as built in src/client.rs lines 71-79: the path, then
the fragment (if any), then the query (if any) - in that order. -/
def requestTarget (u : Url) : String :=
  let withFrag :=
    match u.fragment with
    | some f => u.path ++ "#" ++ f
    | none => u.path
  match u.query with
  | some q => withFrag ++ "?" ++ q
  | none => withFrag

/-- The host header line (src/client.rs lines 94-98). -/
def hostHeaderLine (host : String) : Option Nat → String
  | some port => "host: " ++ host ++ ":" ++ toString port ++ "\r\n"
  | none => "host: " ++ host ++ "\r\n"

/-- One `name: value` line per value of a multi-valued header
(src/client.rs lines 122-126). -/
def valueLines (name : String) : List String → String
  | [] => ""
  | v :: vs => name ++ ": " ++ v ++ "\r\n" ++ valueLines name vs

/-- All header lines of the request's header set, in stored order
(src/client.rs lines 121-127). -/
def headerLines : List (String × List String) → String
  | [] => ""
  | (n, vs) :: rest => valueLines n vs ++ headerLines rest

/-- Client-side `encode` (src/client.rs lines 68-132). -/
def client_encode (now : String) (req : Request) : EncodeResult :=
  let line := req.method ++ " " ++ requestTarget req.url ++ " HTTP/1.1\r\n"
  match req.url.host with
  | none => EncodeResult.err EncErr.invalidInput
  | some host =>
    let buf := line ++ hostHeaderLine host req.url.port
    match req.body_len with
    | none => EncodeResult.panicked "chunked encoding is not implemented yet"
    | some len =>
      let buf := buf ++ "content-length: " ++ toString len ++ "\r\n"
      let buf := buf ++ "date: " ++ now ++ "\r\n"
      let buf := buf ++ headerLines req.headers
      EncodeResult.ok (buf ++ "\r\n")

/-! ## Server response encoding (src/server.rs lines 82-115) -/

structure ServerResponse where
  status : String
  reason : String
  headers : List (String × String)
  body_len : Option Nat

/-- Header lines of the response header map (src/server.rs lines 103-111). -/
def serverHeaderLines : List (String × String) → String
  | [] => ""
  | (n, v) :: rest => n ++ ": " ++ v ++ "\r\n" ++ serverHeaderLines rest

/-- Server-side `encode` (src/server.rs lines 82-115).  When the body length
is unknown the code writes a `Transfer-Encoding: chunked` line and then
panics (line 98); the abort discards the buffer, so it is modelled as
`panicked`. -/
def server_encode (res : ServerResponse) : EncodeResult :=
  let buf := "HTTP/1.1 " ++ res.status ++ " " ++ res.reason ++ "\r\n"
  match res.body_len with
  | some len =>
    EncodeResult.ok (buf ++ "Content-Length: " ++ toString len ++ "\r\n"
      ++ serverHeaderLines res.headers ++ "\r\n")
  | none => EncodeResult.panicked "chunked encoding is not implemented yet"

/-! ## Head accumulation (src/client.rs lines 144-157, src/server.rs 127-140)

The decode loop reads newline-terminated chunks from the source into a
growing buffer until the buffer ends in CR LF CR LF, or the source is
exhausted.  `read_until_nl` models `BufReader::read_until(b'\n', ..)` on an
in-memory source; `accumulate` models the loop, with structural fuel (one
unit per loop iteration; `src.length + 1` always suffices because every
iteration consumes at least one source byte).
-/

/-- Split off the first chunk up to and including a newline byte (10); at
end of input, return whatever is left. -/
def read_until_nl : Bytes → Bytes × Bytes
  | [] => ([], [])
  | b :: rest =>
    if b = 10 then ([10], rest)
    else ((b :: (read_until_nl rest).1), (read_until_nl rest).2)

/-- The boundary test of the loop: the buffer's last four bytes are
CR LF CR LF (13 10 13 10). -/
def ends_crlfcrlf (buf : Bytes) : Bool :=
  decide (4 ≤ buf.length) && decide (buf.drop (buf.length - 4) = [13, 10, 13, 10])

inductive HeadAccum where
  | found (head rest : Bytes)
  | eof (acc : Bytes)
  deriving DecidableEq

def accumulateFuel : Nat → Bytes → Bytes → HeadAccum
  | 0, _, buf => HeadAccum.eof buf
  | fuel + 1, src, buf =>
    match src with
    | [] => HeadAccum.eof buf
    | b :: tl =>
      if ends_crlfcrlf (buf ++ (read_until_nl (b :: tl)).1) then
        HeadAccum.found (buf ++ (read_until_nl (b :: tl)).1) (read_until_nl (b :: tl)).2
      else
        accumulateFuel fuel (read_until_nl (b :: tl)).2 (buf ++ (read_until_nl (b :: tl)).1)

def accumulate (src buf : Bytes) : HeadAccum :=
  accumulateFuel (src.length + 1) src buf

/-- Server-side head accumulation outcome (src/server.rs lines 127-140):
end of input before a boundary is `Ok(None)` - no further request, not an
error. -/
def server_decode_head (src : Bytes) : Option (Bytes × Bytes) :=
  match accumulate src [] with
  | HeadAccum.eof _ => none
  | HeadAccum.found h r => some (h, r)

inductive ClientHeadResult where
  | panicked (msg : String)
  | found (head rest : Bytes)
  deriving DecidableEq

/-- Client-side head accumulation outcome (src/client.rs lines 144-157):
end of input before a boundary hits `panic!("empty response")` - a process
abort, modelled by the `panicked` constructor. -/
def client_decode_head (src : Bytes) : ClientHeadResult :=
  match accumulate src [] with
  | HeadAccum.eof _ => ClientHeadResult.panicked "empty response"
  | HeadAccum.found h r => ClientHeadResult.found h r

/-! ## Body framing on decode

Client side (src/client.rs lines 204-244): header lookup in http-types is
case-insensitive (header names are lowercased on construction), and a
lookup returns the ordered list of values of that header, or `None` when
the header is absent.  Server side (src/server.rs lines 167-175): a plain
case-sensitive search of the raw parsed headers for the exact name
"Content-Length"; the value is never parsed (the code carries a TODO), and
transfer-encoding is never consulted.
-/

/-- ASCII lowercasing of one character (header names are ASCII, and
http-types lowercases header names on construction, so lookups compare
ASCII-case-insensitively). -/
def lowerChar (c : Char) : Char :=
  if 65 ≤ c.toNat ∧ c.toNat ≤ 90 then Char.ofNat (c.toNat + 32) else c

/-- A header name normalized to lowercase, as a character list. -/
def lowerName (s : String) : List Char :=
  s.data.map lowerChar

/-- All values of the named header, case-insensitively, in declaration
order. -/
def headerValues (hs : List (String × String)) (name : String) : List String :=
  (hs.filter (fun p => lowerName p.1 == lowerName name)).map Prod.snd

/-- `Headers::header`: the values of the named header, or `none` when
absent. -/
def header (hs : List (String × String)) (name : String) : Option (List String) :=
  match headerValues hs name with
  | [] => none
  | vs => some vs

/-- Rust's `str::parse::<usize>` on a 64-bit target: an optional leading
'+' sign, then one or more decimal digits, rejecting anything else and
values that overflow 64 bits. -/
def parse_usize (s : String) : Option Nat :=
  let cs :=
    match s.data with
    | '+' :: rest => rest
    | cs => cs
  if cs.isEmpty then none
  else if cs.all (fun c => c.isDigit) then
    let n := cs.foldl (fun acc c => acc * 10 + (c.toNat - 48)) 0
    if n < 2 ^ 64 then some n else none
  else none

inductive DecodeErr where
  | ambiguousFraming
  | invalidContentLength
  deriving DecidableEq

inductive ClientBody where
  | empty
  | fixed (len : Nat) (src : Bytes)
  | chunked (src : Bytes)
  deriving DecidableEq

/-- `Read::take(len)` on the remaining source: reads are bounded to the
first `len` bytes. -/
def takeReader (len : Nat) (src : Bytes) : Bytes :=
  src.take len

/-- The content-length fallthrough of the client decode (src/client.rs
lines 234-241): parse the last content-length value; a parse failure is a
decode error; absence leaves the body empty. -/
def contentLengthFallback (hs : List (String × String)) (remaining : Bytes) :
    Except DecodeErr ClientBody :=
  match header hs "content-length" with
  | some vs =>
    match vs.getLast? with
    | some v =>
      match parse_usize v with
      | some n => Except.ok (ClientBody.fixed n remaining)
      | none => Except.error DecodeErr.invalidContentLength
    | none => Except.ok ClientBody.empty
      -- unreachable: `header` never returns an empty value list (the code
      -- unwraps here)
  | none => Except.ok ClientBody.empty

/-- The body-framing decision of the client decode (src/client.rs lines
204-244), applied to the decoded header set and the not-yet-consumed bytes
of the source.  Both headers present is always an error (the code returns
`ErrorKind::InvalidData`, "Unexpected Content-Length header"; the spec
names this condition AmbiguousFraming). -/
def client_framing (hs : List (String × String)) (remaining : Bytes) :
    Except DecodeErr ClientBody :=
  if (header hs "content-length").isSome && (header hs "transfer-encoding").isSome then
    Except.error DecodeErr.ambiguousFraming
  else
    match header hs "transfer-encoding" with
    | some vs =>
      match vs.getLast? with
      | some v =>
        if v = "chunked" then Except.ok (ClientBody.chunked remaining)
        else contentLengthFallback hs remaining
      | none => contentLengthFallback hs remaining
    | none => contentLengthFallback hs remaining

inductive ServerBody where
  | empty
  | fromReader (src : Bytes)
  deriving DecidableEq

/-- The body decision of the server decode (src/server.rs lines 167-175):
the body is the entire remaining source exactly when some raw header is
named "Content-Length" (case-sensitive), else empty.  No framing
validation, no value parsing, no transfer-encoding handling. -/
def server_framing (hs : List (String × String)) (remaining : Bytes) : ServerBody :=
  if hs.any (fun p => p.1 == "Content-Length") then ServerBody.fromReader remaining
  else ServerBody.empty

/-! ## Encoder lemmas -/

theorem Encoder.new_Inv (h b : Bytes) : (Encoder.new h b).Inv := by
  simp [Encoder.new, Encoder.Inv]

theorem Encoder.new_remaining (h b : Bytes) : (Encoder.new h b).remaining = h ++ b := by
  simp [Encoder.new, Encoder.remaining]

/-- Single-call contract of `poll_read` on invariant states with a nonempty
buffer: the invariant is preserved, the bytes produced are exactly the next
bytes of the not-yet-produced stream (headers first, then body), and a call
produces no bytes only when nothing is left to produce. -/
theorem Encoder.poll_read_spec (e : Encoder) (s : Nat) (hInv : e.Inv) (hs : 1 ≤ s) :
    (e.poll_read s).2.Inv
    ∧ (e.poll_read s).1 ++ (e.poll_read s).2.remaining = e.remaining
    ∧ ((e.poll_read s).1 = [] → e.remaining = []) := by
  obtain ⟨h1, h2, h3⟩ := hInv
  by_cases hd : e.headers_done = true
  · by_cases bd : e.body_done = true
    · -- headers and body both done: the call is a no-op returning 0 bytes
      have hc : e.cursor = e.headers.length := h2 hd
      have hb : e.body = [] := (h3 bd).2
      have hpoll : e.poll_read s = ([], e) := by
        simp [Encoder.poll_read, Encoder.headerStep, Encoder.bodyStep, hd, bd]
      rw [hpoll]
      exact ⟨⟨h1, h2, h3⟩, rfl, fun _ => by simp [Encoder.remaining, hc, hb]⟩
    · -- headers done, body not yet done
      simp only [Bool.not_eq_true] at bd
      have hc : e.cursor = e.headers.length := h2 hd
      simp only [Encoder.poll_read, Encoder.headerStep, Encoder.bodyStep, hd, bd,
        if_true, if_false, Bool.false_eq_true, List.nil_append, List.length_nil,
        Nat.sub_zero, Nat.zero_add, Encoder.remaining, Encoder.Inv]
      refine ⟨⟨h1, fun _ => hc, fun hz => ?_⟩, ?_, ?_⟩
      · have hz' : min s e.body.length = 0 := by
          have := of_decide_eq_true hz
          omega
        have hb : e.body = [] := by
          apply List.eq_nil_of_length_eq_zero
          omega
        simp [hb, hd]
      · rw [hc, List.drop_length, List.nil_append, List.nil_append,
          List.take_append_drop]
      · intro hnil
        have : min s e.body.length = 0 ∨ e.body = [] := by
          have := List.take_eq_nil_iff.mp hnil
          tauto
        have hb : e.body = [] := by
          rcases this with h | h
          · exact List.eq_nil_of_length_eq_zero (by omega)
          · exact h
        simp [hc, hb]
  · by_cases bd : e.body_done = true
    · exact absurd (h3 bd).1 hd
    · -- neither headers nor body done: the main case
      simp only [Bool.not_eq_true] at hd bd
      have hlen_take : ((e.headers.drop e.cursor).take
          (min (e.headers.length - e.cursor) s)).length
          = min (e.headers.length - e.cursor) s := by
        rw [List.length_take, List.length_drop]
        omega
      simp only [Encoder.poll_read, Encoder.headerStep, Encoder.bodyStep, hd, bd,
        if_false, Bool.false_eq_true, Encoder.remaining, Encoder.Inv, hlen_take]
      refine ⟨⟨by omega, fun hz => of_decide_eq_true hz, fun hz => ?_⟩, ?_, ?_⟩
      · have hz' := of_decide_eq_true hz
        have hlen0 : min (e.headers.length - e.cursor) s = 0 := by omega
        have hb : e.body = [] := by
          apply List.eq_nil_of_length_eq_zero
          omega
        refine ⟨decide_eq_true (by omega), by simp [hb]⟩
      · rcases Nat.eq_zero_or_pos
            (min (s - min (e.headers.length - e.cursor) s) e.body.length) with hn | hn
        · rw [hn]
          have hdd : e.headers.drop (e.cursor + min (e.headers.length - e.cursor) s)
              = (e.headers.drop e.cursor).drop (min (e.headers.length - e.cursor) s) := by
            rw [List.drop_drop, Nat.add_comm]
          simp only [List.take_zero, List.drop_zero, List.append_nil, hdd]
          rw [← List.append_assoc, List.take_append_drop]
        · have hcl : e.cursor + min (e.headers.length - e.cursor) s
              = e.headers.length := by omega
          have hdrop : e.headers.drop
              (e.cursor + min (e.headers.length - e.cursor) s) = [] := by
            rw [hcl]; exact List.drop_length _
          have htake : (e.headers.drop e.cursor).take
              (min (e.headers.length - e.cursor) s) = e.headers.drop e.cursor := by
            apply List.take_of_length_le
            rw [List.length_drop]
            omega
          rw [htake, hdrop, List.nil_append, List.append_assoc,
            List.take_append_drop]
      · intro hnil
        rw [List.append_eq_nil] at hnil
        obtain ⟨ha, hb⟩ := hnil
        have hlen0 : min (e.headers.length - e.cursor) s = 0 := by
          rcases List.take_eq_nil_iff.mp ha with h | h
          · exact h
          · have : e.headers.length ≤ e.cursor := List.drop_eq_nil_iff.mp h
            omega
        have hdc : e.headers.drop e.cursor = [] := by
          rw [List.drop_eq_nil_iff]
          omega
        have hbody : e.body = [] := by
          rcases List.take_eq_nil_iff.mp hb with h | h
          · exact List.eq_nil_of_length_eq_zero (by omega)
          · exact h
        simp [hdc, hbody]

/-- Multi-call contract: over any run with nonempty buffers, the
concatenation of all bytes produced, followed by what is still pending,
is exactly the original headers-then-body stream; and any call that
produces no bytes happens only after the whole stream has been produced. -/
theorem Encoder.runTrace_spec (sizes : List Nat) :
    ∀ e : Encoder, e.Inv → (∀ s ∈ sizes, 1 ≤ s) →
    (Encoder.runTrace e sizes).2.Inv
    ∧ (Encoder.runTrace e sizes).1.flatten ++ (Encoder.runTrace e sizes).2.remaining
        = e.remaining
    ∧ (∀ i, (Encoder.runTrace e sizes).1[i]? = some [] →
        ((Encoder.runTrace e sizes).1.take i).flatten = e.remaining) := by
  induction sizes with
  | nil =>
    intro e hInv _
    refine ⟨hInv, by simp [Encoder.runTrace], ?_⟩
    intro i hi
    simp [Encoder.runTrace] at hi
  | cons s ss ih =>
    intro e hInv hsz
    have hs : 1 ≤ s := hsz s (List.mem_cons_self _ _)
    have hss : ∀ t ∈ ss, 1 ≤ t := fun t ht => hsz t (List.mem_cons_of_mem _ ht)
    obtain ⟨hInv1, heq1, hz1⟩ := Encoder.poll_read_spec e s hInv hs
    obtain ⟨hInv2, heq2, hz2⟩ := ih (e.poll_read s).2 hInv1 hss
    refine ⟨by simpa [Encoder.runTrace] using hInv2, ?_, ?_⟩
    · simp only [Encoder.runTrace, List.flatten_cons]
      rw [List.append_assoc, heq2, heq1]
    · intro i hi
      match i with
      | 0 =>
        simp only [Encoder.runTrace, List.getElem?_cons_zero, Option.some.injEq] at hi
        simp only [Encoder.runTrace, List.take_zero, List.flatten_nil]
        exact (hz1 hi).symm
      | i + 1 =>
        simp only [Encoder.runTrace, List.getElem?_cons_succ] at hi
        simp only [Encoder.runTrace, List.take_succ_cons, List.flatten_cons]
        rw [hz2 i hi, heq1]

/-- A flattened list of lists is empty only if every member is empty. -/
theorem flatten_eq_nil_mem {L : List Bytes} (h : L.flatten = []) :
    ∀ x ∈ L, x = [] := by
  intro x hx
  induction L with
  | nil => cases hx
  | cons a l ihl =>
    rw [List.flatten_cons, List.append_eq_nil] at h
    rcases List.mem_cons.mp hx with rfl | hx'
    · exact h.1
    · exact ihl h.2 hx'

/-- If the drain loop has enough fuel, it produces exactly the pending
headers-then-body stream. -/
theorem Encoder.drainOut_spec :
    ∀ (fuel : Nat) (e : Encoder) (s : Nat), e.Inv → 1 ≤ s →
    e.remaining.length < fuel → Encoder.drainOut e s fuel = e.remaining := by
  intro fuel
  induction fuel with
  | zero => intro e s _ _ h; omega
  | succ fuel ih =>
    intro e s hInv hs hlt
    obtain ⟨hInv1, heq1, hz1⟩ := Encoder.poll_read_spec e s hInv hs
    by_cases hout : (Encoder.poll_read e s).1 = []
    · rw [Encoder.drainOut, if_pos hout, hz1 hout]
    · have hcong := congrArg List.length heq1
      rw [List.length_append] at hcong
      have houtlen : 0 < (Encoder.poll_read e s).1.length := List.length_pos.mpr hout
      have hlen : (Encoder.poll_read e s).2.remaining.length < fuel := by omega
      rw [Encoder.drainOut, if_neg hout, ih (Encoder.poll_read e s).2 s hInv1 hs hlen, heq1]

/-- Claim C3: for every encoder and every sequence of read calls with
caller-chosen (nonempty) buffer sizes: all serialized header bytes are
produced before any body byte (the concatenated output, followed by the
still-pending bytes, is exactly headers ++ body); a call returns no bytes
only once everything - headers, then the body producer's bytes - has been
delivered; after the first 0-return every subsequent call also returns 0;
and a single call may mix header and body bytes in one buffer (the
concrete conjunct: headers [1] and body [2] arrive together in one
2-byte read). -/
theorem c3_encoder_read_contract (hdrs body : Bytes) (sizes : List Nat)
    (hsz : ∀ s ∈ sizes, 1 ≤ s) :
    (Encoder.runTrace (Encoder.new hdrs body) sizes).1.flatten
        ++ (Encoder.runTrace (Encoder.new hdrs body) sizes).2.remaining = hdrs ++ body
    ∧ (∀ i, (Encoder.runTrace (Encoder.new hdrs body) sizes).1[i]? = some [] →
        ((Encoder.runTrace (Encoder.new hdrs body) sizes).1.take i).flatten
          = hdrs ++ body)
    ∧ (∀ i, (Encoder.runTrace (Encoder.new hdrs body) sizes).1[i]? = some [] →
        ∀ out ∈ (Encoder.runTrace (Encoder.new hdrs body) sizes).1.drop i, out = [])
    ∧ (Encoder.runTrace (Encoder.new [1] [2]) [2]).1 = [[1, 2]] := by
  obtain ⟨hInv, heq, hz⟩ := Encoder.runTrace_spec sizes (Encoder.new hdrs body)
    (Encoder.new_Inv hdrs body) hsz
  rw [Encoder.new_remaining] at heq hz
  refine ⟨heq, hz, ?_, by decide⟩
  intro i hi out hout
  have htake := hz i hi
  have heq2 : (((Encoder.runTrace (Encoder.new hdrs body) sizes).1.take i
      ++ (Encoder.runTrace (Encoder.new hdrs body) sizes).1.drop i).flatten
      ++ (Encoder.runTrace (Encoder.new hdrs body) sizes).2.remaining)
      = hdrs ++ body := by
    rw [List.take_append_drop]
    exact heq
  rw [List.flatten_append, htake] at heq2
  have hcong := congrArg List.length heq2
  simp only [List.length_append] at hcong
  have hlen : ((Encoder.runTrace (Encoder.new hdrs body) sizes).1.drop i).flatten.length
      = 0 := by omega
  exact flatten_eq_nil_mem (List.eq_nil_of_length_eq_zero hlen) out hout

/-- Witness for C3 at a concrete encoder and call sequence. -/
theorem c3_encoder_read_contract_witness :
    (Encoder.runTrace (Encoder.new [1, 2, 3] [4, 5]) [2, 2, 2, 2]).1.flatten
      ++ (Encoder.runTrace (Encoder.new [1, 2, 3] [4, 5]) [2, 2, 2, 2]).2.remaining
      = [1, 2, 3] ++ [4, 5] :=
  (c3_encoder_read_contract [1, 2, 3] [4, 5] [2, 2, 2, 2] (by decide)).1

/-- Claim C4: driving the encoder to exhaustion with any two (nonempty)
fixed buffer sizes produces the same concatenated byte sequence - the total
encoded output is independent of the caller's chosen buffer size. -/
theorem c4_buffer_size_independence (hdrs body : Bytes) (s1 s2 f1 f2 : Nat)
    (h1 : 1 ≤ s1) (h2 : 1 ≤ s2)
    (hf1 : (hdrs ++ body).length < f1) (hf2 : (hdrs ++ body).length < f2) :
    Encoder.drainOut (Encoder.new hdrs body) s1 f1
      = Encoder.drainOut (Encoder.new hdrs body) s2 f2 := by
  rw [Encoder.drainOut_spec f1 _ s1 (Encoder.new_Inv _ _) h1
        (by rw [Encoder.new_remaining]; exact hf1),
      Encoder.drainOut_spec f2 _ s2 (Encoder.new_Inv _ _) h2
        (by rw [Encoder.new_remaining]; exact hf2)]

/-- Witness for C4: buffer sizes 1 and 4096 on a concrete message. -/
theorem c4_buffer_size_independence_witness :
    Encoder.drainOut (Encoder.new [72, 73, 10] [1, 2, 3]) 1 10
      = Encoder.drainOut (Encoder.new [72, 73, 10] [1, 2, 3]) 4096 10 :=
  c4_buffer_size_independence [72, 73, 10] [1, 2, 3] 1 4096 10 10
    (by decide) (by decide) (by decide) (by decide)

/-- Claim C9: a `poll_read` call preserves `cursor ≤ headers.length` and the
equivalence `headers_done ↔ cursor = headers.length`, writes at most
`buf.len` bytes (the returned byte list is the bytes written, so the count
equals the bytes written by construction), and the header-copy range stays
in bounds: `cursor + min (headers.length - cursor) buf.len ≤ headers.length`. -/
theorem c9_poll_read_invariant (e : Encoder) (s : Nat)
    (h : e.cursor ≤ e.headers.length
        ∧ (e.headers_done = true ↔ e.cursor = e.headers.length)) :
    ((Encoder.poll_read e s).2.cursor ≤ (Encoder.poll_read e s).2.headers.length
      ∧ ((Encoder.poll_read e s).2.headers_done = true
          ↔ (Encoder.poll_read e s).2.cursor = (Encoder.poll_read e s).2.headers.length))
    ∧ (Encoder.poll_read e s).1.length ≤ s
    ∧ e.cursor + min (e.headers.length - e.cursor) s ≤ e.headers.length := by
  obtain ⟨h1, h2⟩ := h
  by_cases hd : e.headers_done = true
  · have hc : e.cursor = e.headers.length := h2.mp hd
    by_cases bd : e.body_done = true
    · have hpoll : e.poll_read s = ([], e) := by
        simp [Encoder.poll_read, Encoder.headerStep, Encoder.bodyStep, hd, bd]
      rw [hpoll]
      exact ⟨⟨h1, h2⟩, by simp, by omega⟩
    · simp only [Bool.not_eq_true] at bd
      simp only [Encoder.poll_read, Encoder.headerStep, Encoder.bodyStep, hd, bd,
        if_true, if_false, Bool.false_eq_true, List.nil_append, List.length_nil,
        Nat.sub_zero, Nat.zero_add]
      refine ⟨⟨h1, by simp [hc]⟩, ?_, by omega⟩
      rw [List.length_take]
      omega
  · simp only [Bool.not_eq_true] at hd
    have hlen_take : ((e.headers.drop e.cursor).take
        (min (e.headers.length - e.cursor) s)).length
        = min (e.headers.length - e.cursor) s := by
      rw [List.length_take, List.length_drop]
      omega
    by_cases bd : e.body_done = true
    · simp only [Encoder.poll_read, Encoder.headerStep, Encoder.bodyStep, hd, bd,
        if_true, if_false, Bool.false_eq_true, hlen_take]
      refine ⟨⟨by omega, ?_⟩, by omega, by omega⟩
      constructor
      · exact fun hz => of_decide_eq_true hz
      · exact fun hz => decide_eq_true hz
    · simp only [Bool.not_eq_true] at bd
      simp only [Encoder.poll_read, Encoder.headerStep, Encoder.bodyStep, hd, bd,
        if_false, Bool.false_eq_true, hlen_take]
      refine ⟨⟨by omega, ?_⟩, ?_, by omega⟩
      · constructor
        · exact fun hz => of_decide_eq_true hz
        · exact fun hz => decide_eq_true hz
      · simp only [List.length_append, List.length_take, List.length_drop]
        omega

/-- Witness for C9 at a concrete invariant state and buffer size. -/
theorem c9_poll_read_invariant_witness :
    ((Encoder.poll_read (Encoder.new [1, 2, 3] [4]) 2).2.cursor
        ≤ (Encoder.poll_read (Encoder.new [1, 2, 3] [4]) 2).2.headers.length
      ∧ ((Encoder.poll_read (Encoder.new [1, 2, 3] [4]) 2).2.headers_done = true
          ↔ (Encoder.poll_read (Encoder.new [1, 2, 3] [4]) 2).2.cursor
            = (Encoder.poll_read (Encoder.new [1, 2, 3] [4]) 2).2.headers.length))
    ∧ (Encoder.poll_read (Encoder.new [1, 2, 3] [4]) 2).1.length ≤ 2
    ∧ (Encoder.new [1, 2, 3] [4]).cursor
        + min ((Encoder.new [1, 2, 3] [4]).headers.length
            - (Encoder.new [1, 2, 3] [4]).cursor) 2
        ≤ (Encoder.new [1, 2, 3] [4]).headers.length :=
  c9_poll_read_invariant (Encoder.new [1, 2, 3] [4]) 2 (by decide)

/-! ## Head accumulation lemmas -/

theorem read_until_nl_append : ∀ src : Bytes,
    (read_until_nl src).1 ++ (read_until_nl src).2 = src := by
  intro src
  induction src with
  | nil => rfl
  | cons b tl ih =>
    by_cases hb : b = 10
    · simp [read_until_nl, hb]
    · simp [read_until_nl, hb, ih]

theorem read_until_nl_ne_nil (b : Nat) (tl : Bytes) : (read_until_nl (b :: tl)).1 ≠ [] := by
  by_cases hb : b = 10 <;> simp [read_until_nl, hb]

/-- If the accumulation loop hits end of input (with enough fuel, which
`accumulate` always supplies), it has read the entire source into its
buffer. -/
theorem accumulateFuel_eof_eq :
    ∀ (fuel : Nat) (src buf acc : Bytes), src.length < fuel →
      accumulateFuel fuel src buf = HeadAccum.eof acc → acc = buf ++ src := by
  intro fuel
  induction fuel with
  | zero => intro src buf acc h; omega
  | succ fuel ih =>
    intro src buf acc hlen hacc
    cases src with
    | nil =>
      simp only [accumulateFuel, HeadAccum.eof.injEq] at hacc
      rw [← hacc, List.append_nil]
    | cons b tl =>
      simp only [accumulateFuel] at hacc
      by_cases hb : ends_crlfcrlf (buf ++ (read_until_nl (b :: tl)).1) = true
      · rw [if_pos hb] at hacc
        exact absurd hacc (by simp)
      · rw [if_neg hb] at hacc
        have hsplit := read_until_nl_append (b :: tl)
        have hpos : 0 < (read_until_nl (b :: tl)).1.length :=
          List.length_pos.mpr (read_until_nl_ne_nil b tl)
        have hlensum : (read_until_nl (b :: tl)).1.length
            + (read_until_nl (b :: tl)).2.length = (b :: tl).length := by
          rw [← List.length_append, hsplit]
        have hrest : (read_until_nl (b :: tl)).2.length < fuel := by
          simp only [List.length_cons] at hlensum hlen
          omega
        rw [ih _ _ _ hrest hacc, List.append_assoc, hsplit]

/-- Claim C8 (amended): on a byte source exhausted before a CR LF CR LF
boundary, decode terminates having consumed the entire source; the server
role returns the no-message signal `none` (not an error); the client role
hits `panic!("empty response")` - a process abort - rather than returning a
ConnectionClosed error value. -/
theorem c8_truncated_head (src acc : Bytes) (h : accumulate src [] = HeadAccum.eof acc) :
    server_decode_head src = none
    ∧ client_decode_head src = ClientHeadResult.panicked "empty response"
    ∧ acc = src := by
  refine ⟨?_, ?_, ?_⟩
  · unfold server_decode_head
    rw [h]
  · unfold client_decode_head
    rw [h]
  · unfold accumulate at h
    have := accumulateFuel_eof_eq (src.length + 1) src [] acc (by omega) h
    simpa using this

/-- Witness for C8: a source holding one truncated line ("GET\n"). -/
theorem c8_truncated_head_witness :
    server_decode_head [71, 69, 84, 10] = none
    ∧ client_decode_head [71, 69, 84, 10] = ClientHeadResult.panicked "empty response"
    ∧ [71, 69, 84, 10] = ([71, 69, 84, 10] : Bytes) :=
  c8_truncated_head [71, 69, 84, 10] [71, 69, 84, 10] (by decide)

/-- Counterexample for C8 as stated: on the immediately-empty source the
client decode does not return a ConnectionClosed error value - it reaches
the `panic!("empty response")` abort (the model's result type records the
panic; there is no error-value outcome on this path in the code). -/
theorem c8_counterexample :
    client_decode_head [] = ClientHeadResult.panicked "empty response" := by
  decide

/-! ## Framing claims -/

/-- Claim C1 (amended): in the client response decode, a header set
containing both content-length and transfer-encoding always fails with the
ambiguous-framing error, regardless of the values; the server request
decode performs no such check - whenever a raw header named exactly
"Content-Length" is present it succeeds with the whole remaining source as
body, transfer-encoding notwithstanding. -/
theorem c1_ambiguous_framing :
    (∀ (hs : List (String × String)) (remaining : Bytes),
      (header hs "content-length").isSome = true →
      (header hs "transfer-encoding").isSome = true →
      client_framing hs remaining = Except.error DecodeErr.ambiguousFraming)
    ∧ (∀ (hs : List (String × String)) (remaining : Bytes),
      hs.any (fun p => p.1 == "Content-Length") = true →
      server_framing hs remaining = ServerBody.fromReader remaining) := by
  constructor
  · intro hs remaining hcl hte
    simp [client_framing, hcl, hte]
  · intro hs remaining hcl
    simp [server_framing, hcl]

/-- Witness for C1 at a concrete header set with both headers present. -/
theorem c1_ambiguous_framing_witness :
    client_framing [("Content-Length", "5"), ("Transfer-Encoding", "chunked")] [1, 2]
        = Except.error DecodeErr.ambiguousFraming
    ∧ server_framing [("Content-Length", "5"), ("Transfer-Encoding", "chunked")] [1, 2]
        = ServerBody.fromReader [1, 2] :=
  ⟨c1_ambiguous_framing.1 [("Content-Length", "5"), ("Transfer-Encoding", "chunked")]
      [1, 2] (by decide) (by decide),
   c1_ambiguous_framing.2 [("Content-Length", "5"), ("Transfer-Encoding", "chunked")]
      [1, 2] (by decide)⟩

/-- Counterexample for C1 as stated: the server request decode does not
fail on a header set containing both content-length and transfer-encoding -
it succeeds, with the whole remaining source as body. -/
theorem c1_counterexample :
    server_framing [("Content-Length", "5"), ("Transfer-Encoding", "chunked")] [1, 2, 3]
      = ServerBody.fromReader [1, 2, 3] := by
  decide

/-- Claim C2 (amended): in the client response decode, when
transfer-encoding is absent and content-length present, the last
content-length value in declaration order is parsed (parse failure is a
decode error) and the body is Fixed with that length, its reads bounded to
at most that many bytes (exactly that many when the source has them); the
server request decode instead takes the entire remaining source as body
whenever a header named exactly "Content-Length" is present, never parsing
or using the value. -/
theorem c2_content_length_framing :
    (∀ (hs : List (String × String)) (remaining : Bytes) (vs : List String)
        (v : String) (n : Nat),
      header hs "transfer-encoding" = none →
      header hs "content-length" = some vs →
      vs.getLast? = some v →
      parse_usize v = some n →
      client_framing hs remaining = Except.ok (ClientBody.fixed n remaining)
        ∧ (takeReader n remaining).length ≤ n
        ∧ (n ≤ remaining.length → (takeReader n remaining).length = n))
    ∧ (∀ (hs : List (String × String)) (remaining : Bytes) (vs : List String)
        (v : String),
      header hs "transfer-encoding" = none →
      header hs "content-length" = some vs →
      vs.getLast? = some v →
      parse_usize v = none →
      client_framing hs remaining = Except.error DecodeErr.invalidContentLength)
    ∧ (∀ (hs : List (String × String)) (remaining : Bytes),
      hs.any (fun p => p.1 == "Content-Length") = true →
      server_framing hs remaining = ServerBody.fromReader remaining) := by
  refine ⟨?_, ?_, ?_⟩
  · intro hs remaining vs v n hte hcl hlast hp
    refine ⟨?_, ?_, ?_⟩
    · simp [client_framing, contentLengthFallback, hte, hcl, hlast, hp]
    · rw [takeReader, List.length_take]
      omega
    · intro hn
      rw [takeReader, List.length_take]
      omega
  · intro hs remaining vs v hte hcl hlast hp
    simp [client_framing, contentLengthFallback, hte, hcl, hlast, hp]
  · intro hs remaining hcl
    simp [server_framing, hcl]

/-- Witness for C2: duplicate content-length values (last wins), a
malformed value, and the server's unbounded body. -/
theorem c2_content_length_framing_witness :
    (client_framing [("content-length", "7"), ("content-length", "5")]
          [0, 1, 2, 3, 4, 5, 6, 7, 8, 9]
        = Except.ok (ClientBody.fixed 5 [0, 1, 2, 3, 4, 5, 6, 7, 8, 9])
      ∧ (takeReader 5 [0, 1, 2, 3, 4, 5, 6, 7, 8, 9]).length ≤ 5
      ∧ (5 ≤ ([0, 1, 2, 3, 4, 5, 6, 7, 8, 9] : Bytes).length →
          (takeReader 5 [0, 1, 2, 3, 4, 5, 6, 7, 8, 9]).length = 5))
    ∧ client_framing [("content-length", "zz")] [1]
        = Except.error DecodeErr.invalidContentLength
    ∧ server_framing [("Content-Length", "5")] [1, 2]
        = ServerBody.fromReader [1, 2] :=
  ⟨c2_content_length_framing.1 [("content-length", "7"), ("content-length", "5")]
      [0, 1, 2, 3, 4, 5, 6, 7, 8, 9] ["7", "5"] "5" 5
      (by decide) (by decide) (by decide) (by decide),
   c2_content_length_framing.2.1 [("content-length", "zz")] [1] ["zz"] "zz"
      (by decide) (by decide) (by decide) (by decide),
   c2_content_length_framing.2.2 [("Content-Length", "5")] [1, 2] (by decide)⟩

/-- Counterexample for C2 as stated: the server decode neither parses the
content-length value nor bounds the body - with "Content-Length: 5" and ten
remaining bytes the body is all ten bytes, and a non-numeric value is not a
decode error. -/
theorem c2_counterexample :
    server_framing [("Content-Length", "5")] [0, 1, 2, 3, 4, 5, 6, 7, 8, 9]
        = ServerBody.fromReader [0, 1, 2, 3, 4, 5, 6, 7, 8, 9]
    ∧ ([0, 1, 2, 3, 4, 5, 6, 7, 8, 9] : Bytes).length ≠ 5
    ∧ server_framing [("Content-Length", "zz")] [1] = ServerBody.fromReader [1] := by
  exact ⟨by decide, by decide, by decide⟩

/-- Claim C5 (amended): in the client response decode, when
transfer-encoding is present with last value "chunked" and content-length
is absent, the body is Chunked wrapping the remaining source; the server
request decode never consults transfer-encoding - without an exactly-named
"Content-Length" header its body is empty. -/
theorem c5_chunked_framing :
    (∀ (hs : List (String × String)) (remaining : Bytes) (vs : List String),
      header hs "transfer-encoding" = some vs →
      vs.getLast? = some "chunked" →
      header hs "content-length" = none →
      client_framing hs remaining = Except.ok (ClientBody.chunked remaining))
    ∧ (∀ (hs : List (String × String)) (remaining : Bytes),
      hs.any (fun p => p.1 == "Content-Length") = false →
      server_framing hs remaining = ServerBody.empty) := by
  constructor
  · intro hs remaining vs hte hlast hcl
    simp [client_framing, hte, hlast, hcl]
  · intro hs remaining hcl
    simp [server_framing, hcl]

/-- Witness for C5: duplicated transfer-encoding values with "chunked"
last on the client; transfer-encoding ignored on the server. -/
theorem c5_chunked_framing_witness :
    client_framing [("transfer-encoding", "gzip"), ("transfer-encoding", "chunked")] [9, 9]
        = Except.ok (ClientBody.chunked [9, 9])
    ∧ server_framing [("Transfer-Encoding", "chunked")] [1]
        = ServerBody.empty :=
  ⟨c5_chunked_framing.1 [("transfer-encoding", "gzip"), ("transfer-encoding", "chunked")]
      [9, 9] ["gzip", "chunked"] (by decide) (by decide) (by decide),
   c5_chunked_framing.2 [("Transfer-Encoding", "chunked")] [1] (by decide)⟩

/-- Counterexample for C5 as stated: the server request decode, given a
transfer-encoding header whose last value is "chunked", produces an empty
body - not a Chunked body wrapping the remaining source. -/
theorem c5_counterexample :
    server_framing [("Transfer-Encoding", "chunked")] [1, 2, 3] = ServerBody.empty := by
  decide

/-- Claim C10: in the client response decode, a transfer-encoding header
that is present but whose last value is not "chunked" (or that has no
values), with no content-length header, is silently ignored: decode
succeeds with an Empty body. -/
theorem c10_unrecognized_te_ignored (hs : List (String × String)) (remaining : Bytes)
    (vs : List String)
    (h1 : header hs "transfer-encoding" = some vs)
    (h2 : vs.getLast? ≠ some "chunked")
    (h3 : header hs "content-length" = none) :
    client_framing hs remaining = Except.ok ClientBody.empty := by
  rcases hgl : vs.getLast? with _ | v
  · simp [client_framing, contentLengthFallback, h1, h3, hgl]
  · have hv : ¬ v = "chunked" := fun hveq => h2 (by rw [hgl, hveq])
    simp [client_framing, contentLengthFallback, h1, h3, hgl, hv]

/-- Witness for C10: transfer-encoding gzip, no content-length. -/
theorem c10_unrecognized_te_ignored_witness :
    client_framing [("transfer-encoding", "gzip")] [7] = Except.ok ClientBody.empty :=
  c10_unrecognized_te_ignored [("transfer-encoding", "gzip")] [7] ["gzip"]
    (by decide) (by decide) (by decide)

/-! ## Encoding claims -/

/-- Claim C6 (amended): request encoding serializes, in order: the request
line `METHOD SP target SP HTTP/1.1 CRLF` where the target is
`path[#fragment][?query]` (the code appends the fragment before the query,
src/client.rs lines 71-79); a host header derived from the target's
authority (an InvalidInput error when no host can be derived); a
content-length header when the body length is known; a date header written
unconditionally (even when one is already present in the header set); all
headers from the HeaderSet in stored order, one line per value; and a
blank-line terminator. -/
theorem c6_request_head_serialization (now : String) (req : Request)
    (host : String) (len : Nat)
    (hh : req.url.host = some host) (hl : req.body_len = some len) :
    client_encode now req = EncodeResult.ok
      (req.method ++ " " ++ requestTarget req.url ++ " HTTP/1.1\r\n"
        ++ hostHeaderLine host req.url.port
        ++ ("content-length: " ++ toString len ++ "\r\n")
        ++ ("date: " ++ now ++ "\r\n")
        ++ headerLines req.headers
        ++ "\r\n") := by
  simp only [client_encode, hh, hl, String.append_assoc]

/-- A concrete request whose target has both a query and a fragment and
whose header set already carries a date header. -/
def reqC6 : Request :=
  { method := "GET",
    url := { path := "/p", query := some "q", fragment := some "f",
             host := some "h", port := none },
    headers := [("date", ["X"])],
    body_len := some 0 }

/-- Witness for C6: the fully evaluated head for `reqC6`. -/
theorem c6_request_head_serialization_witness :
    client_encode "D" reqC6 = EncodeResult.ok
      "GET /p#f?q HTTP/1.1\r\nhost: h\r\ncontent-length: 0\r\ndate: D\r\ndate: X\r\n\r\n" := by
  have h := c6_request_head_serialization "D" reqC6 "h" 0 rfl rfl
  rw [h]
  rfl

/-- Counterexample for C6 as stated: with query "q", fragment "f" and a
date header already present, the code emits target `/p#f?q` (fragment
before query) and a second, unconditional date line - not the claimed
`/p?q#f` with the date synthesized only when absent. -/
theorem c6_counterexample :
    client_encode "D" reqC6 = EncodeResult.ok
      "GET /p#f?q HTTP/1.1\r\nhost: h\r\ncontent-length: 0\r\ndate: D\r\ndate: X\r\n\r\n"
    ∧ client_encode "D" reqC6 ≠ EncodeResult.ok
      "GET /p?q#f HTTP/1.1\r\nhost: h\r\ncontent-length: 0\r\ndate: X\r\n\r\n" := by
  exact ⟨by rfl, by decide⟩

/-- Claim C7 (amended): when the body length is unknown, both encoders fail
fast - but by hitting `panic!("chunked encoding is not implemented yet")`,
a process abort, not by returning an ordinary typed error value; the only
typed error the client encoder returns is InvalidInput for a target with no
derivable host (checked before the length). Neither path silently
mis-encodes a body. -/
theorem c7_unknown_length_panics :
    (∀ (now : String) (req : Request) (host : String),
      req.url.host = some host → req.body_len = none →
      client_encode now req
        = EncodeResult.panicked "chunked encoding is not implemented yet")
    ∧ (∀ res : ServerResponse, res.body_len = none →
      server_encode res
        = EncodeResult.panicked "chunked encoding is not implemented yet")
    ∧ (∀ (now : String) (req : Request), req.url.host = none →
      client_encode now req = EncodeResult.err EncErr.invalidInput) := by
  refine ⟨?_, ?_, ?_⟩
  · intro now req host hh hl
    simp [client_encode, hh, hl]
  · intro res hl
    simp [server_encode, hl]
  · intro now req hh
    simp [client_encode, hh]

/-- A concrete request with a host but an unknown body length. -/
def reqNoLen : Request :=
  { method := "GET",
    url := { path := "/", query := none, fragment := none,
             host := some "example.com", port := none },
    headers := [],
    body_len := none }

/-- A concrete response with an unknown body length. -/
def resNoLen : ServerResponse :=
  { status := "200", reason := "OK", headers := [], body_len := none }

/-- A concrete request with no derivable host. -/
def reqNoHost : Request :=
  { method := "GET",
    url := { path := "/", query := none, fragment := none,
             host := none, port := none },
    headers := [],
    body_len := some 0 }

/-- Witness for C7 at the three concrete inputs. -/
theorem c7_unknown_length_panics_witness :
    client_encode "D" reqNoLen
        = EncodeResult.panicked "chunked encoding is not implemented yet"
    ∧ server_encode resNoLen
        = EncodeResult.panicked "chunked encoding is not implemented yet"
    ∧ client_encode "D" reqNoHost = EncodeResult.err EncErr.invalidInput :=
  ⟨c7_unknown_length_panics.1 "D" reqNoLen "example.com" rfl rfl,
   c7_unknown_length_panics.2.1 resNoLen rfl,
   c7_unknown_length_panics.2.2 "D" reqNoHost rfl⟩

/-- Counterexample for C7 as stated: on an unknown body length neither
encoder returns a typed error value - both reach the panic (a process
abort). -/
theorem c7_counterexample :
    client_encode "D" reqNoLen
        = EncodeResult.panicked "chunked encoding is not implemented yet"
    ∧ (client_encode "D" reqNoLen).isTypedError = false
    ∧ server_encode resNoLen
        = EncodeResult.panicked "chunked encoding is not implemented yet"
    ∧ (server_encode resNoLen).isTypedError = false := by
  exact ⟨by rfl, by rfl, by rfl, by rfl⟩
